import Mathlib

/-!
# PeerChat — verification of the session and message-relay engine

Shallow embedding of the PeerChat repository (server `main.py`, the
`communicator` and `database` modules, and the client's decryption
pipeline), together with proofs settling the specification claims.

Python byte values are modelled as `Nat`, Python strings either as Lean
`String` (where only equality matters) or as `List Char`/`List Nat`
(where character structure matters).  Fallible Python code is modelled
with `Option`/`Except`.
-/

namespace PeerChat

/- Bytes of the wire stream (0–255) are modelled as plain `Nat`. -/

/-! ## Wire protocol codec (`dependencies/modules/communicator.py`)

`send` pickles the value, sends a 64-byte ASCII decimal length header
padded on the right with spaces, then the payload.  `receive` reads the
64-byte header, strips it, converts with `int`, then loops reading until
exactly that many payload bytes have arrived.
-/

/- Modelled from the spec: the domain of serializable values the codec
must carry — "strings, integers, booleans, `null`, ordered sequences,
and string-keyed mappings, nested arbitrarily" (§6).  Python strings are
sequences of code points, modelled as `List Nat`.  (Floats are outside
this model.) -/
mutual
inductive Value where
  | pynull
  | pybool (b : Bool)
  | pyint (n : Int)
  | pystr (s : List Nat)
  | pylist (xs : ValueSeq)
  | pydict (kvs : ValueMap)
inductive ValueSeq where
  | nil
  | cons (v : Value) (vs : ValueSeq)
inductive ValueMap where
  | nil
  | cons (key : List Nat) (v : Value) (kvs : ValueMap)
end

/-- Is this byte an ASCII decimal digit? -/
def isDigitByte (b : Nat) : Bool := 48 ≤ b && b ≤ 57

/-- Little-endian base-10 digit extraction, fuel-indexed so the
definition is structural (the fuel `n` itself always suffices). -/
def natDigitsLEAux : Nat → Nat → List Nat
  | _, 0 => []
  | 0, _ + 1 => []
  | fuel + 1, n + 1 => ((n + 1) % 10 + 48) :: natDigitsLEAux fuel ((n + 1) / 10)

/-- Little-endian ASCII decimal digits of `n` (empty for 0). -/
def natDigitsLE (n : Nat) : List Nat := natDigitsLEAux n n

/-- Read back a little-endian ASCII digit string. -/
def digitsToNat (ds : List Nat) : Nat := Nat.ofDigits 10 (ds.map (· - 48))

/-- Modelled from the spec: serialized form of a Python int
(optional `-` sign then digits, `;`-terminated by the caller). -/
def intBody (n : Int) : List Nat :=
  if n < 0 then 45 :: natDigitsLE n.natAbs else natDigitsLE n.toNat

/-- Modelled from the spec: serialized form of a string's code points,
each as digits followed by `,` (44). -/
def strContent (s : List Nat) : List Nat :=
  (s.map (fun c => natDigitsLE c ++ [44])).flatten

/- Modelled from the spec: the payload serializer standing in for
`pickle.dumps` (an external stdlib facility), which the spec requires to
"serialize arbitrary nested structures losslessly" (§4.1).  Tag bytes:
`N` null, `T`/`F` booleans, `I` int, `S` string, `L` sequence,
`D` mapping; `;` (59) terminates variable-length forms. -/
mutual
def dumps : Value → List Nat
  | .pynull => [78]
  | .pybool true => [84]
  | .pybool false => [70]
  | .pyint n => 73 :: (intBody n ++ [59])
  | .pystr s => 83 :: (strContent s ++ [59])
  | .pylist xs => 76 :: (dumpsSeq xs ++ [59])
  | .pydict kvs => 68 :: (dumpsMap kvs ++ [59])
def dumpsSeq : ValueSeq → List Nat
  | .nil => []
  | .cons v vs => dumps v ++ dumpsSeq vs
def dumpsMap : ValueMap → List Nat
  | .nil => []
  | .cons k v kvs => (83 :: (strContent k ++ [59])) ++ dumps v ++ dumpsMap kvs
end

/-- Parse an int body: optional `-`, digits, then `;`. -/
def parseIntBody (input : List Nat) : Option (Int × List Nat) :=
  let body := if input.head? = some 45 then input.tail else input
  let rest := body.dropWhile isDigitByte
  if rest.head? = some 59 then
    some (if input.head? = some 45 then -(digitsToNat (body.takeWhile isDigitByte) : Int)
          else (digitsToNat (body.takeWhile isDigitByte) : Int), rest.tail)
  else none

/-- Parse a string body: `,`-terminated code points up to `;`.
Fuel-indexed so the definition is structural. -/
def parseStrContent : Nat → List Nat → Option (List Nat × List Nat)
  | 0, _ => none
  | fuel + 1, input =>
    if input.head? = some 59 then some ([], input.tail)
    else
      let rest := input.dropWhile isDigitByte
      if rest.head? = some 44 then
        (parseStrContent fuel rest.tail).map
          (fun p => (digitsToNat (input.takeWhile isDigitByte) :: p.1, p.2))
      else none

/- Modelled from the spec: the payload deserializer standing in for
`pickle.loads`.  Fuel-indexed (one unit per nesting step) so the
definition is structural and computable by the kernel. -/
mutual
def parseVal : Nat → List Nat → Option (Value × List Nat)
  | 0, _ => none
  | fuel + 1, input =>
    let r := input.tail
    if input.head? = some 78 then some (.pynull, r)
    else if input.head? = some 84 then some (.pybool true, r)
    else if input.head? = some 70 then some (.pybool false, r)
    else if input.head? = some 73 then (parseIntBody r).map (fun p => (.pyint p.1, p.2))
    else if input.head? = some 83 then
      (parseStrContent (r.length + 1) r).map (fun p => (.pystr p.1, p.2))
    else if input.head? = some 76 then (parseSeq fuel r).map (fun p => (.pylist p.1, p.2))
    else if input.head? = some 68 then (parseMap fuel r).map (fun p => (.pydict p.1, p.2))
    else none
def parseSeq : Nat → List Nat → Option (ValueSeq × List Nat)
  | 0, _ => none
  | fuel + 1, input =>
    if input.head? = some 59 then some (.nil, input.tail)
    else
      (parseVal fuel input).bind (fun vr =>
        (parseSeq fuel vr.2).map (fun p => (.cons vr.1 p.1, p.2)))
def parseMap : Nat → List Nat → Option (ValueMap × List Nat)
  | 0, _ => none
  | fuel + 1, input =>
    if input.head? = some 59 then some (.nil, input.tail)
    else if input.head? = some 83 then
      (parseStrContent (input.tail.length + 1) input.tail).bind (fun kr =>
        (parseVal fuel kr.2).bind (fun vr =>
          (parseMap fuel vr.2).map (fun p => (.cons kr.1 vr.1 p.1, p.2))))
    else none
end

/- Fuel sufficient for `parseVal` to parse the encoding of a value. -/
mutual
def pfuel : Value → Nat
  | .pynull => 1
  | .pybool _ => 1
  | .pyint _ => 1
  | .pystr _ => 1
  | .pylist xs => 1 + pfuelSeq xs
  | .pydict kvs => 1 + pfuelMap kvs
def pfuelSeq : ValueSeq → Nat
  | .nil => 1
  | .cons v vs => 1 + max (pfuel v) (pfuelSeq vs)
def pfuelMap : ValueMap → Nat
  | .nil => 1
  | .cons _ v kvs => 1 + max (pfuel v) (pfuelMap kvs)
end

/-- `HEADER = 64` in `communicator.py`. -/
def HEADERLEN : Nat := 64

/-- Big-endian ASCII decimal representation, as Python's `str` of an int
(`"0"` for zero). -/
def natToDecBE (n : Nat) : List Nat :=
  if n = 0 then [48] else (natDigitsLE n).reverse

/-- Value of a big-endian ASCII digit string, as Python's `int`. -/
def decBEToNat (ds : List Nat) : Nat := Nat.ofDigits 10 ((ds.map (· - 48)).reverse)

/-- `send` (communicator.py lines 15–31): length header from `str`,
right-padded with spaces to 64 bytes (no padding if already longer),
followed by the payload. -/
def sendBytes (payload : List Nat) : List Nat :=
  let lengthHeader := natToDecBE payload.length
  (lengthHeader ++ List.replicate (HEADERLEN - lengthHeader.length) 32) ++ payload

/-- Python `str.strip()` on a byte string: drop spaces from both ends. -/
def stripSpaces (l : List Nat) : List Nat :=
  ((l.dropWhile (· == 32)).reverse.dropWhile (· == 32)).reverse

/-- `int(header.strip())`: `none` models the `ValueError` on a malformed
header. -/
def parseHeaderField (hdr : List Nat) : Option Nat :=
  let t := stripSpaces hdr
  if t ≠ [] ∧ t.all isDigitByte = true then some (decBEToNat t) else none

/-- `receive` (communicator.py lines 41–57) at the byte level: read the
64-byte header, parse the length, then read exactly that many payload
bytes; any 0-byte read (exhausted stream) is a `ConnectionResetError`,
modelled as `none`. -/
def receiveBytes (stream : List Nat) : Option (List Nat) :=
  if stream.isEmpty then none
  else
    match parseHeaderField (stream.take HEADERLEN) with
    | none => none
    | some n =>
      if (stream.drop HEADERLEN).length < n then none
      else some ((stream.drop HEADERLEN).take n)

/-- `pickle.loads` model: parse one value from the byte string (trailing
bytes, if any, are ignored, as `pickle.loads` stops at its STOP opcode). -/
def loads (input : List Nat) : Option Value :=
  (parseVal (input.length + 1) input).map (·.1)

/-- `send(data, connection)`: full frame for a value. -/
def sendFrame (v : Value) : List Nat := sendBytes (dumps v)

/-- `receive(connection)`: decode one frame from the stream. -/
def receiveFrame (stream : List Nat) : Option Value :=
  (receiveBytes stream).bind loads

/-- A witness value whose serialized payload is exactly 64 bytes —
the header-boundary case the claim singles out. -/
def boundaryValue : Value := .pystr (List.replicate 62 0)

/-! ## Persistence store (`dependencies/modules/database/__init__.py`) -/

/-- A row of the `users` table:
`users(user_id, ip, mac, username UNIQUE, key, UNIQUE(ip,mac))`. -/
structure UserRow where
  user_id : Nat
  ip : String
  mac : String
  username : List Char
  key : String
deriving DecidableEq

/-- A row of the `chats` table: `chats(chat_id PK, user_1, user_2)`. -/
structure ChatRow where
  chat_id : String
  user_1 : Nat
  user_2 : Nat
deriving DecidableEq

/-- A row of a per-chat message table:
`<chat_id>(message_id PK AUTOINCREMENT, sender_id, message, dt, unread)`. -/
structure MsgRow where
  message_id : Nat
  sender_id : Nat
  message : String
  dt : String
  unread : Bool
deriving DecidableEq

/-- The dynamically created per-chat tables, keyed by table name. -/
abbrev MsgTables := List (String × List MsgRow)

/-- `Database.get_user(ip, mac)`: `SELECT * FROM users WHERE ip = ? AND mac = ?`. -/
def get_user (users : List UserRow) (ip mac : String) : Option UserRow :=
  users.find? (fun u => u.ip == ip && u.mac == mac)

/-- `Database.get_user_id(_id)`: `SELECT * FROM users WHERE user_id = ?`. -/
def get_user_id (users : List UserRow) (i : Nat) : Option UserRow :=
  users.find? (fun u => u.user_id == i)

/-- SQLite AUTOINCREMENT: one more than the largest id ever used
(with append-only inserts, one more than the maximum present). -/
def nextUserId (users : List UserRow) : Nat :=
  users.foldr (fun u m => max u.user_id m) 0 + 1

/-- `Database.add_user`: `INSERT INTO users (ip, mac, username, key)`,
returning the new row. -/
def add_user (users : List UserRow) (ip mac : String) (username : List Char)
    (key : String) : List UserRow × UserRow :=
  let row : UserRow := ⟨nextUserId users, ip, mac, username, key⟩
  (users ++ [row], row)

/-- `Database.validate_username`: true iff no user has exactly this
username (SQLite `=` on TEXT is case-sensitive). -/
def validate_username (users : List UserRow) (username : List Char) : Bool :=
  (users.find? (fun u => u.username == username)).isNone

/-- `Database.change_key`: `UPDATE users SET key = ? WHERE user_id = ?`. -/
def change_key (users : List UserRow) (uid : Nat) (key : String) : List UserRow :=
  users.map (fun u => if u.user_id = uid then { u with key := key } else u)

/-- `Database.change_username`: `UPDATE users SET username = ? WHERE user_id = ?`. -/
def change_username (users : List UserRow) (uid : Nat)
    (username : List Char) : List UserRow :=
  users.map (fun u => if u.user_id = uid then { u with username := username } else u)

/-- `chat_id = f'chat_{user_id_1}_{user_id_2}'` — connection order, not
canonicalized. -/
def mkChatId (a b : Nat) : String :=
  "chat_" ++ toString a ++ "_" ++ toString b

/-- `Database.create_chat`: `INSERT INTO chats (chat_id, user_1, user_2)`.
`none` models the `sqlite3.IntegrityError` raised when the `chat_id`
primary key already exists. -/
def create_chat (chats : List ChatRow) (u1 u2 : Nat) :
    Option (List ChatRow × String) :=
  let cid := mkChatId u1 u2
  if chats.any (fun r => r.chat_id == cid) then none
  else some (chats ++ [⟨cid, u1, u2⟩], cid)

/-- A sequence of `create_chat` commands; a failed insert (propagated
exception) leaves the table unchanged. -/
def execCreateChats (ops : List (Nat × Nat)) (chats : List ChatRow) : List ChatRow :=
  ops.foldl (fun acc op =>
    match create_chat acc op.1 op.2 with
    | some (acc', _) => acc'
    | none => acc) chats

/-- AUTOINCREMENT for a message table. -/
def nextMsgId (tbl : List MsgRow) : Nat :=
  tbl.foldr (fun r m => max r.message_id m) 0 + 1

/-- `Database.add_message`: `INSERT INTO {chat_id} (sender_id, message, dt,
unread)`, returning `cursor.lastrowid`.  `none` models the
`sqlite3.OperationalError` when no such table exists. -/
def add_message (tables : MsgTables) (chat_id : String) (sender : Nat)
    (message dt : String) (unread : Bool) : Option (MsgTables × Nat) :=
  match tables.lookup chat_id with
  | none => none
  | some tbl =>
    let mid := nextMsgId tbl
    some (tables.map (fun nt =>
      if nt.1 = chat_id then (nt.1, nt.2 ++ [⟨mid, sender, message, dt, unread⟩])
      else nt), mid)

/-- `Database.get_message`: `SELECT * FROM {chat_id} WHERE message_id = ?`. -/
def get_message (tables : MsgTables) (chat_id : String) (mid : Nat) : Option MsgRow :=
  (tables.lookup chat_id).bind (fun tbl => tbl.find? (fun r => r.message_id == mid))

/-- `Database.read_messages`: `UPDATE {chat_id} SET unread = 0 WHERE
unread = 1`.  `none` models the error when no such table exists. -/
def read_messages (tables : MsgTables) (chat_id : String) : Option MsgTables :=
  match tables.lookup chat_id with
  | none => none
  | some _ => some (tables.map (fun nt =>
      if nt.1 = chat_id then (nt.1, nt.2.map (fun r => { r with unread := false }))
      else nt))

/-- ASCII lowering used by SQLite's `LIKE` (case-insensitive for ASCII
letters only). -/
def lowerChar (c : Char) : Char := c.toLower

/-- SQLite `LIKE` pattern matching: `%` matches any sequence, `_` any
single character, other characters match up to ASCII case. -/
def likeMatch : List Char → List Char → Bool
  | [], t => t.isEmpty
  | p :: ps, t =>
    if p = '%' then
      likeMatch ps t ||
        (match t with
         | [] => false
         | _ :: ts => likeMatch (p :: ps) ts)
    else
      match t with
      | [] => false
      | d :: ts => (if p = '_' then true else lowerChar p == lowerChar d) && likeMatch ps ts
termination_by p t => p.length + t.length
decreasing_by all_goals simp_arith [*]

/-- `Database.get_users(username)`:
`SELECT * FROM users WHERE username LIKE '%{username}%'`. -/
def get_users (users : List UserRow) (username : List Char) : List UserRow :=
  users.filter (fun u => likeMatch ('%' :: (username ++ ['%'])) u.username)

/-- Payload of one chat produced by `Database.get_user_chats` for the
sync stream. -/
structure ChatPayload where
  chat_id : String
  is_user_1 : Bool
  peer_id : Nat
  peer_username : List Char
  peer_key : String
  messages : List MsgRow
deriving DecidableEq

/-- `ORDER BY message_id DESC LIMIT 50` followed by `[::-1]`: the last
50 rows in ascending order (tables are kept in insertion order). -/
def lastFifty (tbl : List MsgRow) : List MsgRow := (tbl.reverse.take 50).reverse

/-- `Database.get_user_chats`: every chat the user participates in, with
peer details and its most recent 50 messages.  `none` models the
`TypeError`/`OperationalError` if a peer row or chat table is missing. -/
def get_user_chats (users : List UserRow) (chats : List ChatRow)
    (tables : MsgTables) (uid : Nat) : Option (List ChatPayload) :=
  (chats.filter (fun c => c.user_1 == uid || c.user_2 == uid)).mapM (fun c =>
    let is1 := c.user_1 == uid
    match get_user_id users (if is1 then c.user_2 else c.user_1),
          tables.lookup c.chat_id with
    | some peer, some tbl =>
      some ⟨c.chat_id, is1, peer.user_id, peer.username, peer.key, lastFifty tbl⟩
    | _, _ => none)

/-! ## Server session handling (`server/main.py`) -/

/-- Python runtime errors relevant to the model. -/
inductive PyErr where
  | typeError
deriving DecidableEq

/-- A call to `Database.get_user` through Python's calling convention:
the method requires two positional arguments (`ip`, `mac`); any other
arity raises `TypeError` before any query runs. -/
def callGetUser (users : List UserRow) (args : List String) :
    Except PyErr (Option UserRow) :=
  match args with
  | [ip, mac] => .ok (get_user users ip mac)
  | _ => .error .typeError

/-- main.py line 62: `user = database.get_user(mac)` — the handshake
looks the user up passing only the received MAC, one argument short. -/
def handshake_lookup (users : List UserRow) (mac : String) :
    Except PyErr (Option UserRow) :=
  callGetUser users [mac]

/-- main.py lines 65–72: the `registered`/`unregistered` reply that
would be chosen from the lookup result. -/
def handshake_reply (users : List UserRow) (mac : String) : Except PyErr String :=
  (handshake_lookup users mac).map
    (fun u => if u.isSome then "registered" else "unregistered")

/-- Messages the server writes to sockets. -/
inductive ServerMsg where
  | text (s : String)
  | idUsername (i : Nat) (u : List Char)
  | chat (c : ChatPayload)
  | changeKey (peer_id : Nat) (peer_key : String)
deriving DecidableEq

/-- Outcome of the registered-user branch of `handle_client`
(main.py lines 71–95): final users table, messages sent to the
connecting client, `change_key` notices sent to peers, the presence
registry, and the exception (if any) that ended the handler. -/
structure RegOutcome where
  users : List UserRow
  toClient : List ServerMsg
  toPeers : List (Nat × ServerMsg)
  clients : List Nat
  err : Option PyErr
deriving DecidableEq

/-- main.py lines 77–98 (once past the key check): send `(id, username)`,
stream the user's chats, push `change_key` to each online peer if the
key changed (line 92), send `sync complete`, register presence. -/
def syncPhase (users : List UserRow) (chats : List ChatRow) (tables : MsgTables)
    (clients : List Nat) (user : UserRow) (key_changed : Bool)
    (sent0 : List ServerMsg) : RegOutcome :=
  let sent1 := sent0 ++ [.idUsername user.user_id user.username]
  match get_user_chats users chats tables user.user_id with
  | none => ⟨users, sent1, [], clients, some .typeError⟩
  | some cps =>
    ⟨users,
     sent1 ++ cps.map .chat ++ [.text "sync complete"],
     (cps.filter (fun c =>
        key_changed && clients.contains c.peer_id && c.peer_id != user.user_id)).map
       (fun c => (c.peer_id, .changeKey user.user_id user.key)),
     clients ++ [user.user_id],
     none⟩

/-- main.py lines 71–95: the branch taken when the handshake found the
user.  Sends `registered`; if the submitted key differs from the stored
one it persists the new key (line 75) and then re-fetches the user with
`database.get_user(mac)` (line 76) — again one argument short. -/
def registered_branch (users : List UserRow) (chats : List ChatRow)
    (tables : MsgTables) (clients : List Nat) (user : UserRow) (key : String) :
    RegOutcome :=
  let sent0 : List ServerMsg := [.text "registered"]
  if key ≠ user.key then
    let users1 := change_key users user.user_id key
    match callGetUser users1 [user.mac] with
    | .error e => ⟨users1, sent0, [], clients, some e⟩
    | .ok u' => syncPhase users1 chats tables clients (u'.getD user) true sent0
  else
    syncPhase users chats tables clients user false sent0

/-- `ALLOWED_CHARS = '_@ '` (main.py line 22). -/
def ALLOWED_CHARS : List Char := ['_', '@', ' ']

/-- Python `str.isalnum()` restricted to ASCII (all usernames the claims
exercise are ASCII): non-empty and every character alphanumeric. -/
def pyIsAlnum (l : List Char) : Bool := !l.isEmpty && l.all Char.isAlphanum

/-- One round of `get_username` (main.py lines 207–215): the reply string
the server sends for a submitted candidate username. -/
def username_reply (users : List UserRow) (username : List Char) : String :=
  if !pyIsAlnum (username.filter (fun c => !ALLOWED_CHARS.contains c)) then
    "invalid username"
  else if validate_username users username then "username accepted"
  else "This username is already taken"

/-- `send_message` (main.py lines 176–196): persist the message with
`unread = not self_chat`, then relay the freshly fetched row to the peer
if the peer is present and it is not a self-chat.  Returns the updated
tables and the list of `receive_message` deliveries `(recipient,
payload)`; the payload carries `database.get_message`'s result. -/
def send_message (clients : List Nat) (tables : MsgTables) (_id : Nat)
    (chat_id : String) (peer_id : Nat) (message dt : String) :
    Option (MsgTables × List (Nat × Option MsgRow)) :=
  let self_chat := _id == peer_id
  match add_message tables chat_id _id message dt (!self_chat) with
  | none => none
  | some (tables', mid) =>
    some (tables',
      if clients.contains peer_id && !self_chat then
        [(peer_id, get_message tables' chat_id mid)]
      else [])

/-- How a session ends, as distinguished by `handle_client`'s handlers
(main.py lines 128–135). -/
inductive EndEvent where
  | connReset
  | connAborted
  | otherError
deriving DecidableEq

/-- main.py lines 128–135: on `ConnectionResetError`/`ConnectionAbortedError`
the handler deletes the presence entry (if present) and closes the
socket; on any other exception it only logs — registry and socket are
left untouched.  Returns the registry and whether the socket was closed. -/
def handle_session_end (clients : List Nat) (uid : Nat) :
    EndEvent → List Nat × Bool
  | .connReset => (if uid ∈ clients then clients.erase uid else clients, true)
  | .connAborted => (if uid ∈ clients then clients.erase uid else clients, true)
  | .otherError => (clients, false)

/-! ## Client decryption pipeline (`client/main.py`, `home_screen.py`) -/

/-- Outcome of the external `pq_ntru.decrypt` primitive on one call:
success, the `ValueError` it raises on key mismatch/corrupt data, or any
other exception. -/
inductive PrimResult where
  | ok (plaintext : String)
  | valueError
  | otherError
deriving DecidableEq

/-- `decrypt_message` (client/main.py lines 63–82): returns
`(ciphertext, plaintext-or-None)`; every exception from the primitive is
caught and becomes `None`. -/
def decrypt_message (prim : PrimResult) (message : String) : String × Option String :=
  (message,
   match prim with
   | .ok p => some p
   | .valueError => none
   | .otherError => none)

/-- The fixed failure placeholder of `MessageLabel.add_text`. -/
def FAILURE_TEXT : String := "Unable to decrypt message"

/-- `MessageLabel.add_text` (home_screen.py lines 511–522): a `None`
plaintext renders as the fixed placeholder in italics.  Returns the
rendered text and the italic flag. -/
def add_text (text : Option String) : String × Bool :=
  match text with
  | none => (FAILURE_TEXT, true)
  | some t => (t, false)

/-- The per-chat saved-chat mapping `ciphertext -> plaintext-or-None`
(a Python dict, modelled as an association list with replacing update). -/
abbrev SavedChat := List (String × Option String)

/-- Python `dict` item assignment / `update`: replace the value if the
key is present, else append the pair. -/
def dictSet (d : SavedChat) (k : String) (v : Option String) : SavedChat :=
  if d.any (fun p => p.1 == k) then
    d.map (fun p => if p.1 = k then (p.1, v) else p)
  else d ++ [(k, v)]

/-- Python `dict` lookup returning the entry if the key is present. -/
def dictGet (d : SavedChat) (k : String) : Option (Option String) :=
  (d.find? (fun p => p.1 == k)).map (·.2)

/-- `ChatScreen.add_message`'s text selection (home_screen.py lines
456–466 and 511–522): `saved_chat[ciphertext]`, with `KeyError` treated
as `None`, rendered by `add_text`. -/
def render_from_cache (d : SavedChat) (cipher : String) : String × Bool :=
  add_text ((dictGet d cipher).join)

/-- The live `receive_message` path (home_screen.py lines 178–189):
decrypt in a one-shot pool, update the saved chat, render the message. -/
def live_receive_render (prim : PrimResult) (cipher : String)
    (cache : SavedChat) : String × Bool :=
  let dm := decrypt_message prim cipher
  render_from_cache (dictSet cache dm.1 dm.2) cipher

/-- The bulk-resync decryption of `add_existing_chat` (home_screen.py
lines 236–246): decrypt every ciphertext not already in the saved chat
and merge the results in. -/
def sync_decrypt (prim : String → PrimResult) (msgs : List String)
    (cache : SavedChat) : SavedChat :=
  ((msgs.filter (fun m => (dictGet cache m).isNone)).map
      (fun m => decrypt_message (prim m) m)).foldl
    (fun acc p => dictSet acc p.1 p.2) cache

/-- Rendering of one synced message after the bulk decrypt
(home_screen.py lines 250–252). -/
def sync_render (prim : String → PrimResult) (msgs : List String)
    (cache : SavedChat) (cipher : String) : String × Bool :=
  render_from_cache (sync_decrypt prim msgs cache) cipher

/-- Case-insensitive prefix test — the spec-side notion for C10. -/
def prefixCI (needle hay : List Char) : Bool :=
  (needle.map lowerChar).isPrefixOf (hay.map lowerChar)

/-- Case-insensitive substring test — the spec-side notion for C10
("contains s as a substring", case-insensitively). -/
def containsCI (needle : List Char) : List Char → Bool
  | [] => prefixCI needle []
  | c :: rest => prefixCI needle (c :: rest) || containsCI needle rest


/-! ## Wire-codec lemmas (C1) -/

theorem isDigitByte_iff (b : Nat) : isDigitByte b = true ↔ 48 ≤ b ∧ b ≤ 57 := by
  simp [isDigitByte]

theorem natDigitsLEAux_eq (fuel n : Nat) (h : n ≤ fuel) :
    natDigitsLEAux fuel n = (Nat.digits 10 n).map (· + 48) := by
  induction fuel generalizing n with
  | zero =>
    interval_cases n
    simp [natDigitsLEAux]
  | succ fuel ih =>
    match n with
    | 0 => simp [natDigitsLEAux]
    | m + 1 =>
      rw [natDigitsLEAux, Nat.digits_def' (b := 10) (by norm_num) (by omega : 0 < m + 1),
        ih ((m + 1) / 10) (by omega)]
      simp

theorem natDigitsLE_eq_digits (n : Nat) :
    natDigitsLE n = (Nat.digits 10 n).map (· + 48) :=
  natDigitsLEAux_eq n n le_rfl

theorem digitsToNat_natDigitsLE (n : Nat) : digitsToNat (natDigitsLE n) = n := by
  rw [natDigitsLE_eq_digits]
  unfold digitsToNat
  rw [List.map_map]
  have h : (Nat.digits 10 n).map ((fun d => d - 48) ∘ (fun d => d + 48)) =
      (Nat.digits 10 n).map id :=
    List.map_congr_left (fun d _ => by simp)
  rw [h, List.map_id]
  exact Nat.ofDigits_digits 10 n

theorem mem_natDigitsLE (n : Nat) : ∀ d ∈ natDigitsLE n, isDigitByte d = true := by
  intro d hd
  rw [natDigitsLE_eq_digits] at hd
  obtain ⟨d0, hd0, rfl⟩ := List.mem_map.mp hd
  have : d0 < 10 := Nat.digits_lt_base (by norm_num) hd0
  simp only [isDigitByte_iff]
  omega

theorem scan_digits_append (ds : List Nat) (hds : ∀ d ∈ ds, isDigitByte d = true)
    (sep : Nat) (hsep : isDigitByte sep = false) (rest : List Nat) :
    (ds ++ sep :: rest).takeWhile isDigitByte = ds ∧
    (ds ++ sep :: rest).dropWhile isDigitByte = sep :: rest := by
  induction ds with
  | nil => simp [List.takeWhile_cons, List.dropWhile_cons, hsep]
  | cons d ds ih =>
    have hd : isDigitByte d = true := hds d (List.mem_cons_self d ds)
    have ih' := ih (fun x hx => hds x (List.mem_cons_of_mem d hx))
    simp [List.takeWhile_cons, List.dropWhile_cons, hd, ih'.1, ih'.2]

theorem digits_head_ne (n : Nat) (sep : Nat) (rest : List Nat) (b : Nat)
    (hb : isDigitByte b = false) (hsep : sep ≠ b) :
    (natDigitsLE n ++ sep :: rest).head? ≠ some b := by
  cases h : natDigitsLE n with
  | nil => simp [hsep]
  | cons d ds =>
    have hd : isDigitByte d = true := mem_natDigitsLE n d (by simp [h])
    simp only [List.cons_append, List.head?_cons, ne_eq, Option.some.injEq]
    intro hdb
    rw [hdb] at hd
    rw [hd] at hb
    exact absurd hb (by simp)

theorem parseIntBody_intBody (n : Int) (rest : List Nat) :
    parseIntBody (intBody n ++ 59 :: rest) = some (n, rest) := by
  have h59 : isDigitByte 59 = false := by decide
  by_cases hn : n < 0
  · have hi : intBody n = 45 :: natDigitsLE n.natAbs := by rw [intBody, if_pos hn]
    obtain ⟨hta, htd⟩ :=
      scan_digits_append (natDigitsLE n.natAbs) (mem_natDigitsLE _) 59 h59 rest
    rw [hi, List.cons_append]
    simp only [parseIntBody, List.head?_cons, List.tail_cons, htd, hta,
      digitsToNat_natDigitsLE, eq_self_iff_true, if_true, Option.some.injEq,
      Prod.mk.injEq, and_true]
    omega
  · have hi : intBody n = natDigitsLE n.toNat := by rw [intBody, if_neg hn]
    obtain ⟨hta, htd⟩ :=
      scan_digits_append (natDigitsLE n.toNat) (mem_natDigitsLE _) 59 h59 rest
    have hhead : (natDigitsLE n.toNat ++ 59 :: rest).head? ≠ some 45 :=
      digits_head_ne n.toNat 59 rest 45 (by decide) (by decide)
    rw [hi]
    simp only [parseIntBody, hhead, if_false, htd, hta, List.head?_cons, List.tail_cons,
      digitsToNat_natDigitsLE, eq_self_iff_true, if_true, Option.some.injEq,
      Prod.mk.injEq, and_true]
    omega

theorem parseStrContent_strContent (s : List Nat) (rest : List Nat) (fuel : Nat)
    (hfuel : s.length + 1 ≤ fuel) :
    parseStrContent fuel (strContent s ++ 59 :: rest) = some (s, rest) := by
  induction s generalizing fuel with
  | nil =>
    match fuel with
    | 0 => omega
    | f + 1 => simp [strContent, parseStrContent]
  | cons c cs ih =>
    match fuel with
    | 0 => omega
    | f + 1 =>
      have h44 : isDigitByte 44 = false := by decide
      obtain ⟨hta, htd⟩ := scan_digits_append (natDigitsLE c) (mem_natDigitsLE _) 44 h44
        (strContent cs ++ 59 :: rest)
      have hhead : (natDigitsLE c ++ 44 :: (strContent cs ++ 59 :: rest)).head? ≠ some 59 :=
        digits_head_ne c 44 _ 59 (by decide) (by decide)
      have hs : strContent (c :: cs) ++ 59 :: rest
          = natDigitsLE c ++ 44 :: (strContent cs ++ 59 :: rest) := by
        simp [strContent]
      rw [hs]
      simp only [parseStrContent, hhead, if_false, htd, hta, List.head?_cons,
        List.tail_cons, digitsToNat_natDigitsLE, eq_self_iff_true, if_true]
      rw [ih f (by simp at hfuel; omega)]
      simp

theorem le_strContent_length (s : List Nat) : s.length ≤ (strContent s).length := by
  induction s with
  | nil => simp [strContent]
  | cons c cs ih =>
    have hs : strContent (c :: cs) = (natDigitsLE c ++ [44]) ++ strContent cs := by
      simp [strContent]
    rw [hs]
    simp only [List.length_append, List.length_cons, List.length_nil]
    simp only [List.length_cons] at *
    omega

theorem one_le_dumps_length (v : Value) : 1 ≤ (dumps v).length := by
  match v with
  | .pynull => simp [dumps]
  | .pybool true => simp [dumps]
  | .pybool false => simp [dumps]
  | .pyint n => simp [dumps]
  | .pystr s => simp [dumps]
  | .pylist xs => simp [dumps]
  | .pydict kvs => simp [dumps]

theorem one_le_pfuel (v : Value) : 1 ≤ pfuel v := by
  match v with
  | .pynull => simp [pfuel]
  | .pybool b => simp [pfuel]
  | .pyint n => simp [pfuel]
  | .pystr s => simp [pfuel]
  | .pylist xs => simp [pfuel]
  | .pydict kvs => simp [pfuel]

theorem dumps_ne_nil (v : Value) : dumps v ≠ [] := by
  match v with
  | .pynull => simp [dumps]
  | .pybool true => simp [dumps]
  | .pybool false => simp [dumps]
  | .pyint n => simp [dumps]
  | .pystr s => simp [dumps]
  | .pylist xs => simp [dumps]
  | .pydict kvs => simp [dumps]

theorem dumps_head_ne_59 (v : Value) : ¬(dumps v).head? = some 59 := by
  match v with
  | .pynull => simp [dumps]
  | .pybool true => simp [dumps]
  | .pybool false => simp [dumps]
  | .pyint n => simp [dumps]
  | .pystr s => simp [dumps]
  | .pylist xs => simp [dumps]
  | .pydict kvs => simp [dumps]

mutual

theorem pfuel_le (v : Value) : pfuel v ≤ (dumps v).length := by
  match v with
  | .pynull => simp [pfuel, dumps]
  | .pybool true => simp [pfuel, dumps]
  | .pybool false => simp [pfuel, dumps]
  | .pyint n => simp [pfuel, dumps]
  | .pystr s => simp [pfuel, dumps]
  | .pylist xs =>
    have h := pfuelSeq_le xs
    simp only [pfuel, dumps, List.length_cons, List.length_append, List.length_singleton]
    omega
  | .pydict kvs =>
    have h := pfuelMap_le kvs
    simp only [pfuel, dumps, List.length_cons, List.length_append, List.length_singleton]
    omega

theorem pfuelSeq_le (xs : ValueSeq) : pfuelSeq xs ≤ (dumpsSeq xs).length + 1 := by
  match xs with
  | .nil => simp [pfuelSeq, dumpsSeq]
  | .cons v vs =>
    have h1 := pfuel_le v
    have h2 := pfuelSeq_le vs
    have h3 := one_le_dumps_length v
    simp only [pfuelSeq, dumpsSeq, List.length_append]
    omega

theorem pfuelMap_le (kvs : ValueMap) : pfuelMap kvs ≤ (dumpsMap kvs).length + 1 := by
  match kvs with
  | .nil => simp [pfuelMap, dumpsMap]
  | .cons k v kvs =>
    have h1 := pfuel_le v
    have h2 := pfuelMap_le kvs
    have h3 := one_le_dumps_length v
    simp only [pfuelMap, dumpsMap, List.length_append, List.length_cons]
    omega

end

mutual

theorem parseVal_dumps (v : Value) (rest : List Nat) (fuel : Nat) (h : pfuel v ≤ fuel) :
    parseVal fuel (dumps v ++ rest) = some (v, rest) := by
  match v, fuel with
  | v, 0 => exact absurd h (by have := one_le_pfuel v; omega)
  | .pynull, f + 1 => simp [dumps, parseVal]
  | .pybool true, f + 1 => simp [dumps, parseVal]
  | .pybool false, f + 1 => simp [dumps, parseVal]
  | .pyint n, f + 1 =>
    simp only [dumps, List.cons_append, List.append_assoc, List.singleton_append]
    simp [parseVal, parseIntBody_intBody]
  | .pystr s, f + 1 =>
    have hle := le_strContent_length s
    simp only [dumps, List.cons_append, List.nil_append, List.append_assoc,
      List.singleton_append]
    simp only [parseVal, List.head?_cons, List.tail_cons]
    rw [if_neg (by decide), if_neg (by decide), if_neg (by decide), if_neg (by decide),
      if_pos trivial,
      parseStrContent_strContent s rest ((strContent s ++ 59 :: rest).length + 1)
        (by simp only [List.length_append, List.length_cons]; omega)]
    simp
  | .pylist xs, f + 1 =>
    have hx : pfuelSeq xs ≤ f := by simp only [pfuel] at h; omega
    simp only [dumps, List.cons_append, List.append_assoc, List.singleton_append]
    simp [parseVal, parseSeq_dumpsSeq xs rest f hx]
  | .pydict kvs, f + 1 =>
    have hx : pfuelMap kvs ≤ f := by simp only [pfuel] at h; omega
    simp only [dumps, List.cons_append, List.append_assoc, List.singleton_append]
    simp [parseVal, parseMap_dumpsMap kvs rest f hx]

theorem parseSeq_dumpsSeq (xs : ValueSeq) (rest : List Nat) (fuel : Nat)
    (h : pfuelSeq xs ≤ fuel) :
    parseSeq fuel (dumpsSeq xs ++ 59 :: rest) = some (xs, rest) := by
  match xs, fuel with
  | xs, 0 => exact absurd h (by match xs with
      | .nil => simp [pfuelSeq]
      | .cons v vs => simp [pfuelSeq])
  | .nil, f + 1 => simp [dumpsSeq, parseSeq]
  | .cons v vs, f + 1 =>
    have hv : pfuel v ≤ f := by simp only [pfuelSeq] at h; omega
    have hvs : pfuelSeq vs ≤ f := by simp only [pfuelSeq] at h; omega
    simp only [dumpsSeq, List.append_assoc]
    simp [parseSeq, parseVal_dumps v (dumpsSeq vs ++ 59 :: rest) f hv,
      parseSeq_dumpsSeq vs rest f hvs]
    exact ⟨dumps_head_ne_59 v, fun hnil => absurd hnil (dumps_ne_nil v)⟩

theorem parseMap_dumpsMap (kvs : ValueMap) (rest : List Nat) (fuel : Nat)
    (h : pfuelMap kvs ≤ fuel) :
    parseMap fuel (dumpsMap kvs ++ 59 :: rest) = some (kvs, rest) := by
  match kvs, fuel with
  | kvs, 0 => exact absurd h (by match kvs with
      | .nil => simp [pfuelMap]
      | .cons k v kvs => simp [pfuelMap])
  | .nil, f + 1 => simp [dumpsMap, parseMap]
  | .cons k v kvs, f + 1 =>
    have hv : pfuel v ≤ f := by simp only [pfuelMap] at h; omega
    have hkvs : pfuelMap kvs ≤ f := by simp only [pfuelMap] at h; omega
    have hle := le_strContent_length k
    simp only [dumpsMap, List.cons_append, List.nil_append, List.append_assoc,
      List.singleton_append]
    simp only [parseMap, List.head?_cons, List.tail_cons]
    rw [if_neg (by decide), if_pos trivial,
      parseStrContent_strContent k (dumps v ++ (dumpsMap kvs ++ 59 :: rest))
        ((strContent k ++ 59 :: (dumps v ++ (dumpsMap kvs ++ 59 :: rest))).length + 1)
        (by simp only [List.length_append, List.length_cons]; omega)]
    simp [parseVal_dumps v (dumpsMap kvs ++ 59 :: rest) f hv,
      parseMap_dumpsMap kvs rest f hkvs]

end

theorem decBEToNat_natToDecBE (n : Nat) : decBEToNat (natToDecBE n) = n := by
  by_cases h : n = 0
  · subst h
    simp [natToDecBE, decBEToNat, Nat.ofDigits]
  · unfold natToDecBE decBEToNat
    rw [if_neg h, natDigitsLE_eq_digits, List.map_reverse, List.reverse_reverse,
      List.map_map]
    have heq : (Nat.digits 10 n).map ((fun d => d - 48) ∘ (fun d => d + 48)) =
        (Nat.digits 10 n).map id :=
      List.map_congr_left (fun d _ => by simp)
    rw [heq, List.map_id]
    exact Nat.ofDigits_digits 10 n

theorem natToDecBE_ne_nil (n : Nat) : natToDecBE n ≠ [] := by
  unfold natToDecBE
  by_cases h : n = 0
  · simp [h]
  · rw [if_neg h, natDigitsLE_eq_digits]
    intro hc
    have h2 : Nat.digits 10 n = [] := by
      cases hd : Nat.digits 10 n with
      | nil => rfl
      | cons a l => rw [hd] at hc; simp at hc
    exact (Nat.digits_ne_nil_iff_ne_zero.mpr h) h2

theorem mem_natToDecBE (n : Nat) : ∀ d ∈ natToDecBE n, isDigitByte d = true := by
  intro d hd
  unfold natToDecBE at hd
  by_cases h : n = 0
  · rw [if_pos h] at hd
    simp at hd
    subst hd
    decide
  · rw [if_neg h, List.mem_reverse] at hd
    exact mem_natDigitsLE n d hd

theorem natToDecBE_length_le (n : Nat) (h : n < 10 ^ 64) :
    (natToDecBE n).length ≤ 64 := by
  unfold natToDecBE
  by_cases h0 : n = 0
  · simp [h0]
  · rw [if_neg h0, natDigitsLE_eq_digits]
    simp only [List.length_reverse, List.length_map]
    by_contra hlen
    push_neg at hlen
    have h1 : 10 ^ (Nat.digits 10 n).length ≤ 10 * n :=
      Nat.base_pow_length_digits_le 10 n (by norm_num) h0
    have h2 : (10 : Nat) ^ 65 ≤ 10 ^ (Nat.digits 10 n).length :=
      Nat.pow_le_pow_right (by norm_num) (by omega)
    have h3 : (10 : Nat) ^ 65 = 10 * 10 ^ 64 := by ring
    omega

theorem dropWhile_space_replicate (k : Nat) (l : List Nat) :
    (List.replicate k 32 ++ l).dropWhile (· == 32) = l.dropWhile (· == 32) := by
  induction k with
  | zero => simp
  | succ k ih => simp [List.replicate_succ, List.dropWhile_cons, ih]

theorem stripSpaces_digits (d : List Nat) (hd : ∀ x ∈ d, isDigitByte x = true)
    (hne : d ≠ []) (k : Nat) :
    stripSpaces (d ++ List.replicate k 32) = d := by
  have hkeep : ∀ (a : Nat) (l : List Nat), isDigitByte a = true →
      (a :: l).dropWhile (· == 32) = a :: l := by
    intro a l ha
    rw [isDigitByte_iff] at ha
    have h32 : (a == 32) = false := by
      simp only [beq_eq_false_iff_ne, ne_eq]
      omega
    rw [List.dropWhile_cons, h32]
    simp
  unfold stripSpaces
  obtain ⟨a, d', rfl⟩ : ∃ a d', d = a :: d' := by
    cases d with
    | nil => exact absurd rfl hne
    | cons a d' => exact ⟨a, d', rfl⟩
  rw [List.cons_append,
    hkeep a (d' ++ List.replicate k 32) (hd a (List.mem_cons_self a d')),
    show a :: (d' ++ List.replicate k 32) = (a :: d') ++ List.replicate k 32 from by simp,
    List.reverse_append, List.reverse_replicate, dropWhile_space_replicate]
  cases hrev : (a :: d').reverse with
  | nil => simp at hrev
  | cons b l =>
    have hb : isDigitByte b = true := by
      have hbmem : b ∈ (a :: d').reverse := by
        rw [hrev]
        exact List.mem_cons_self b l
      exact hd b (List.mem_reverse.mp hbmem)
    rw [hkeep b l hb, ← hrev, List.reverse_reverse]

theorem parseHeaderField_header (n : Nat) (k : Nat) :
    parseHeaderField (natToDecBE n ++ List.replicate k 32) = some n := by
  unfold parseHeaderField
  rw [stripSpaces_digits (natToDecBE n) (mem_natToDecBE n) (natToDecBE_ne_nil n) k]
  rw [if_pos ⟨natToDecBE_ne_nil n, List.all_eq_true.mpr (mem_natToDecBE n)⟩,
    decBEToNat_natToDecBE]

theorem receiveBytes_sendBytes (payload : List Nat) (h : payload.length < 10 ^ 64) :
    receiveBytes (sendBytes payload) = some payload := by
  have hlen := natToDecBE_length_le payload.length h
  have hhl : (natToDecBE payload.length ++
      List.replicate (HEADERLEN - (natToDecBE payload.length).length) 32).length
      = HEADERLEN := by
    simp only [List.length_append, List.length_replicate, HEADERLEN]
    omega
  unfold sendBytes receiveBytes
  rw [List.take_left' hhl, List.drop_left' hhl, parseHeaderField_header]
  have hempty : ((natToDecBE payload.length ++
      List.replicate (HEADERLEN - (natToDecBE payload.length).length) 32) ++
        payload).isEmpty = false := by
    cases hq : (natToDecBE payload.length) with
    | nil => exact absurd hq (natToDecBE_ne_nil _)
    | cons a l => simp [hq]
  rw [hempty]
  simp

theorem loads_dumps (v : Value) : loads (dumps v) = some v := by
  unfold loads
  have h := parseVal_dumps v [] ((dumps v).length + 1)
    (le_trans (pfuel_le v) (by omega))
  rw [List.append_nil] at h
  rw [h]
  rfl

/-- C1: for every serializable value `v` (whose payload fits the 64-byte
decimal header, as every physically realizable payload does), `receive`
applied to the byte stream produced by `send` returns `v`: `send` emits
a 64-byte space-padded ASCII decimal length header followed by exactly
that many payload bytes, and `receive` parses the header and reads back
exactly that many payload bytes. -/
theorem framed_codec_roundtrip (v : Value) (h : (dumps v).length < 10 ^ 64) :
    receiveFrame (sendFrame v) = some v := by
  unfold receiveFrame sendFrame
  rw [receiveBytes_sendBytes (dumps v) h]
  simpa using loads_dumps v

/-- Witness for C1 at a concrete value whose serialized payload is
exactly 64 bytes — the header-boundary case. -/
theorem framed_codec_roundtrip_witness :
    (dumps boundaryValue).length < 10 ^ 64 ∧
      receiveFrame (sendFrame boundaryValue) = some boundaryValue :=
  ⟨by decide, framed_codec_roundtrip boundaryValue (by decide)⟩

/-! ## Persistence-store lemmas -/

theorem lookup_update_self (tables : MsgTables) (chat_id : String)
    (f : List MsgRow → List MsgRow) :
    (tables.map (fun nt => if nt.1 = chat_id then (nt.1, f nt.2) else nt)).lookup chat_id
      = (tables.lookup chat_id).map f := by
  induction tables with
  | nil => simp
  | cons nt rest ih =>
    obtain ⟨k0, rows0⟩ := nt
    simp only [List.map_cons]
    by_cases h : k0 = chat_id
    · rw [if_pos h]
      subst h
      simp [List.lookup]
    · rw [if_neg h]
      have hne : (chat_id == k0) = false := by
        rw [beq_eq_false_iff_ne]
        exact Ne.symm h
      simp [List.lookup, hne, ih]

theorem lookup_update_other (tables : MsgTables) (chat_id c : String)
    (hc : c ≠ chat_id) (f : List MsgRow → List MsgRow) :
    (tables.map (fun nt => if nt.1 = chat_id then (nt.1, f nt.2) else nt)).lookup c
      = tables.lookup c := by
  induction tables with
  | nil => simp
  | cons nt rest ih =>
    obtain ⟨k0, rows0⟩ := nt
    simp only [List.map_cons]
    by_cases h : k0 = chat_id
    · rw [if_pos h]
      subst h
      have hne : (c == k0) = false := beq_eq_false_iff_ne.mpr hc
      simp [List.lookup, hne, ih]
    · rw [if_neg h]
      by_cases h2 : c = k0
      · subst h2
        simp [List.lookup, ih]
      · have hne : (c == k0) = false := beq_eq_false_iff_ne.mpr h2
        simp [List.lookup, hne, ih]

/-! ## C8: read_messages clears exactly the named chat -/

/-- C8: for every `read_messages{chat_id}` command on an existing chat,
every row of that chat's table gets `unread` cleared (all other fields
kept), and every row of every other chat's table is left unchanged. -/
theorem read_messages_frame (tables : MsgTables) (chat_id : String) (tbl : List MsgRow)
    (h : tables.lookup chat_id = some tbl) :
    ∃ tables', read_messages tables chat_id = some tables' ∧
      tables'.lookup chat_id = some (tbl.map (fun r => { r with unread := false })) ∧
      ∀ c, c ≠ chat_id → tables'.lookup c = tables.lookup c := by
  unfold read_messages
  rw [h]
  refine ⟨_, rfl, ?_, ?_⟩
  · rw [lookup_update_self, h]
    rfl
  · intro c hc
    exact lookup_update_other tables chat_id c hc _

/-- Witness for C8 on a concrete two-chat state. -/
theorem read_messages_frame_witness :
    ([("chat_1_2", [MsgRow.mk 1 1 "m" "d" true]),
      ("chat_3_4", [MsgRow.mk 1 3 "n" "d" true])].lookup "chat_1_2"
        = some [MsgRow.mk 1 1 "m" "d" true]) ∧
    (∃ tables',
      read_messages [("chat_1_2", [MsgRow.mk 1 1 "m" "d" true]),
        ("chat_3_4", [MsgRow.mk 1 3 "n" "d" true])] "chat_1_2" = some tables' ∧
      tables'.lookup "chat_1_2"
        = some ([MsgRow.mk 1 1 "m" "d" true].map (fun r => { r with unread := false })) ∧
      ∀ c, c ≠ "chat_1_2" →
        tables'.lookup c = ([("chat_1_2", [MsgRow.mk 1 1 "m" "d" true]),
          ("chat_3_4", [MsgRow.mk 1 3 "n" "d" true])] : MsgTables).lookup c) :=
  ⟨rfl, read_messages_frame _ "chat_1_2" _ rfl⟩

/-! ## C2: the handshake user lookup -/

/-- C2: the claim says the Handshaking state looks the user up by the
`(ip, mac)` pair and replies `unregistered`/`registered` according to
whether a user with that pair exists.  The code (main.py line 62) calls
`Database.get_user` with only the MAC: the call raises `TypeError`
before any query runs, so the `(ip, mac)` lookup never happens and
neither reply is ever sent, for every database state and every
connection. -/
theorem handshake_lookup_typeerror (users : List UserRow) (mac : String) :
    handshake_lookup users mac = .error .typeError ∧
    handshake_reply users mac = .error .typeError :=
  ⟨rfl, rfl⟩

/-! ## C5: presence cleanup on session end -/

/-- C5 counterexample: a session that ends with a non-transport
exception (`except Exception`, main.py line 134) leaves the presence
entry in the registry and does not close the connection — refuting the
claim that "any other error observed by the handler" removes the entry
and releases the connection. -/
theorem presence_cleanup_counterexample :
    handle_session_end [7] 7 .otherError = ([7], false) ∧ 7 ∈ ([7] : List Nat) := by
  constructor
  · rfl
  · simp

/-- C5 (amended): on `ConnectionResetError` or `ConnectionAbortedError`
the handler removes the user's presence entry (the registry has no
duplicate ids) and closes the connection; on any other exception it
leaves the registry and the connection untouched. -/
theorem presence_cleanup_amended (clients : List Nat) (uid : Nat) (h : clients.Nodup) :
    (uid ∉ (handle_session_end clients uid .connReset).1 ∧
      (handle_session_end clients uid .connReset).2 = true) ∧
    (uid ∉ (handle_session_end clients uid .connAborted).1 ∧
      (handle_session_end clients uid .connAborted).2 = true) ∧
    handle_session_end clients uid .otherError = (clients, false) := by
  refine ⟨⟨?_, rfl⟩, ⟨?_, rfl⟩, rfl⟩ <;>
  · simp only [handle_session_end]
    by_cases hmem : uid ∈ clients
    · rw [if_pos hmem]
      exact h.not_mem_erase
    · rw [if_neg hmem]
      exact hmem

/-- Witness for the amended C5 on a concrete registry. -/
theorem presence_cleanup_amended_witness :
    ([3, 7] : List Nat).Nodup ∧
    ((3 ∉ (handle_session_end [3, 7] 3 .connReset).1 ∧
      (handle_session_end [3, 7] 3 .connReset).2 = true) ∧
    (3 ∉ (handle_session_end [3, 7] 3 .connAborted).1 ∧
      (handle_session_end [3, 7] 3 .connAborted).2 = true) ∧
    handle_session_end [3, 7] 3 .otherError = ([3, 7], false)) :=
  ⟨by decide, presence_cleanup_amended [3, 7] 3 (by decide)⟩

/-! ## C4: chat uniqueness -/

/-- C4 counterexample: starting from an empty chats table, `create_chat`
initiated by user 1 towards user 2 and then by user 2 towards user 1
produces two chats with distinct chat ids for the same unordered pair
`{1, 2}` — the ids are not canonicalized. -/
theorem create_chat_unordered_counterexample :
    execCreateChats [(1, 2), (2, 1)] [] =
      [ChatRow.mk "chat_1_2" 1 2, ChatRow.mk "chat_2_1" 2 1] ∧
    ("chat_1_2" : String) ≠ "chat_2_1" := by
  constructor
  · rfl
  · decide

theorem execCreateChats_inv (ops : List (Nat × Nat)) (chats : List ChatRow)
    (h1 : ∀ r ∈ chats, r.chat_id = mkChatId r.user_1 r.user_2)
    (h2 : (chats.map (fun r => r.chat_id)).Nodup) :
    (∀ r ∈ execCreateChats ops chats, r.chat_id = mkChatId r.user_1 r.user_2) ∧
    ((execCreateChats ops chats).map (fun r => r.chat_id)).Nodup := by
  induction ops generalizing chats with
  | nil => exact ⟨h1, h2⟩
  | cons op ops ih =>
    have hstep : execCreateChats (op :: ops) chats
        = execCreateChats ops (match create_chat chats op.1 op.2 with
            | some (acc', _) => acc'
            | none => chats) := rfl
    rw [hstep]
    unfold create_chat
    by_cases hany : chats.any (fun r => r.chat_id == mkChatId op.1 op.2)
    · rw [if_pos hany]
      exact ih chats h1 h2
    · rw [if_neg hany]
      apply ih
      · intro r hr
        rcases List.mem_append.mp hr with hr | hr
        · exact h1 r hr
        · simp at hr
          subst hr
          rfl
      · rw [List.map_append]
        have hnotin : mkChatId op.1 op.2 ∉ chats.map (fun r => r.chat_id) := by
          intro hmem
          apply hany
          rw [List.any_eq_true]
          obtain ⟨r, hrmem, hrid⟩ := List.mem_map.mp hmem
          exact ⟨r, hrmem, by rw [hrid]; simp⟩
        simp [List.nodup_append, h2, hnotin]

/-- C4 (amended): at most one chat exists per ORDERED pair (initiator,
peer): every chat's id is deterministically `chat_<idA>_<idB>` in
connection order and a repeated `create_chat` for the same ordered pair
fails the `chat_id` primary-key insert, leaving the table unchanged —
but a reversed initiator creates a second, distinct chat id for the
same unordered pair. -/
theorem create_chat_ordered_unique (ops : List (Nat × Nat)) :
    (∀ r ∈ execCreateChats ops [], r.chat_id = mkChatId r.user_1 r.user_2) ∧
    (execCreateChats ops []).Pairwise
      (fun r1 r2 => r1.user_1 ≠ r2.user_1 ∨ r1.user_2 ≠ r2.user_2) := by
  obtain ⟨h1, h2⟩ := execCreateChats_inv ops [] (by simp) (by simp)
  refine ⟨h1, ?_⟩
  rw [List.Nodup, List.pairwise_map] at h2
  refine h2.imp_of_mem ?_
  intro r1 r2 hm1 hm2 hne
  by_contra hcon
  push_neg at hcon
  obtain ⟨e1, e2⟩ := hcon
  apply hne
  rw [h1 r1 hm1, h1 r2 hm2, e1, e2]

/-! ## C6: username negotiation -/

theorem validate_username_iff (us : List UserRow) (username : List Char) :
    validate_username us username = true ↔ ∀ u ∈ us, u.username ≠ username := by
  unfold validate_username
  rw [Option.isNone_iff_eq_none, List.find?_eq_none]
  constructor
  · intro h u hu
    simpa using h u hu
  · intro h u hu
    simpa using h u hu

theorem isEmpty_eq_false_iff (l : List Char) : l.isEmpty = false ↔ l ≠ [] := by
  cases l with
  | nil => simp
  | cons a l => simp

theorem pyIsAlnum_iff (l : List Char) :
    pyIsAlnum l = true ↔ (l ≠ [] ∧ ∀ c ∈ l, c.isAlphanum = true) := by
  unfold pyIsAlnum
  rw [Bool.and_eq_true, Bool.not_eq_true', List.all_eq_true, isEmpty_eq_false_iff]

theorem validate_username_after_add (users : List UserRow) (username : List Char)
    (ip mac key : String) :
    validate_username (users ++ [⟨nextUserId users, ip, mac, username, key⟩])
      username = false := by
  unfold validate_username
  cases hf : (users ++ [(⟨nextUserId users, ip, mac, username, key⟩ : UserRow)]).find?
      (fun u => u.username == username) with
  | some u => simp
  | none =>
    rw [List.find?_eq_none] at hf
    exact absurd
      (by simp : ((⟨nextUserId users, ip, mac, username, key⟩ : UserRow).username
        == username) = true)
      (by simpa using hf ⟨nextUserId users, ip, mac, username, key⟩ (by simp))

/-- C6: a submitted candidate username is accepted iff (1) after
removing the whitelisted punctuation `_`, `@` and space the remaining
string is non-empty and alphanumeric, and (2) no existing user has
exactly that username (case-sensitive); and acceptance is granted at
most once per string: once a user is created with it, resubmitting the
identical string is rejected as taken. -/
theorem username_negotiation_spec (users : List UserRow) (username : List Char)
    (ip mac key : String) :
    (username_reply users username = "username accepted" ↔
      ((username.filter (fun c => !ALLOWED_CHARS.contains c)) ≠ [] ∧
        (∀ c ∈ username.filter (fun c => !ALLOWED_CHARS.contains c),
          c.isAlphanum = true) ∧
        ∀ u ∈ users, u.username ≠ username)) ∧
    (username_reply users username = "username accepted" →
      username_reply (add_user users ip mac username key).1 username
        = "This username is already taken") := by
  have hinvalid : ("invalid username" : String) ≠ "username accepted" := by decide
  have htaken : ("This username is already taken" : String) ≠ "username accepted" := by
    decide
  cases hpy : pyIsAlnum (username.filter (fun c => !ALLOWED_CHARS.contains c)) with
  | false =>
    have hreply : username_reply users username = "invalid username" := by
      unfold username_reply
      rw [hpy]
      simp
    rw [hreply]
    constructor
    · constructor
      · intro hcon
        exact absurd hcon hinvalid
      · intro hcon
        have : pyIsAlnum (username.filter (fun c => !ALLOWED_CHARS.contains c))
            = true := (pyIsAlnum_iff _).mpr ⟨hcon.1, hcon.2.1⟩
        rw [hpy] at this
        exact absurd this (by simp)
    · intro hcon
      exact absurd hcon hinvalid
  | true =>
    cases hval : validate_username users username with
    | false =>
      have hreply : username_reply users username = "This username is already taken" := by
        unfold username_reply
        rw [hpy, hval]
        simp
      rw [hreply]
      constructor
      · constructor
        · intro hcon
          exact absurd hcon htaken
        · intro hcon
          have : validate_username users username = true :=
            (validate_username_iff users username).mpr hcon.2.2
          rw [hval] at this
          exact absurd this (by simp)
      · intro hcon
        exact absurd hcon htaken
    | true =>
      have hreply : username_reply users username = "username accepted" := by
        unfold username_reply
        rw [hpy, hval]
        simp
      rw [hreply]
      constructor
      · constructor
        · intro _
          obtain ⟨hne, hall⟩ := (pyIsAlnum_iff _).mp hpy
          exact ⟨hne, hall, (validate_username_iff users username).mp hval⟩
        · intro _
          rfl
      · intro _
        unfold username_reply add_user
        rw [hpy, validate_username_after_add users username ip mac key]
        simp

/-- Witness for C6: the empty user table accepts `a`; after that user is
created the identical resubmission is rejected as taken. -/
theorem username_negotiation_spec_witness :
    username_reply [] ['a'] = "username accepted" ∧
    username_reply (add_user [] "ip" "mac" ['a'] "k").1 ['a']
      = "This username is already taken" := by
  have h := username_negotiation_spec [] ['a'] "ip" "mac" "k"
  have h1 : username_reply [] ['a'] = "username accepted" :=
    h.1.mpr ⟨by decide, by decide, by simp⟩
  exact ⟨h1, h.2 h1⟩

/-! ## C3: send_message -/

theorem msgid_lt_nextMsgId (tbl : List MsgRow) : ∀ r ∈ tbl, r.message_id < nextMsgId tbl := by
  unfold nextMsgId
  induction tbl with
  | nil => simp
  | cons a l ih =>
    intro r hr
    rcases List.mem_cons.mp hr with hr | hr
    · subst hr
      simp only [List.foldr_cons]
      omega
    · have := ih r hr
      simp only [List.foldr_cons]
      omega

theorem find?_fresh_append (tbl : List MsgRow) (row : MsgRow)
    (h : ∀ r ∈ tbl, r.message_id ≠ row.message_id) :
    (tbl ++ [row]).find? (fun r => r.message_id == row.message_id) = some row := by
  induction tbl with
  | nil => simp
  | cons a l ih =>
    have ha : (a.message_id == row.message_id) = false :=
      beq_eq_false_iff_ne.mpr (h a (List.mem_cons_self a l))
    simp only [List.cons_append, List.find?_cons, ha]
    exact ih (fun r hr => h r (List.mem_cons_of_mem a hr))

/-- C3: a `send_message` from sender `_id` in chat `chat_id` naming peer
`peer_id` appends exactly one row to that chat's table (with
`unread = true` iff the peer differs from the sender), leaves every
other chat's table unchanged, delivers exactly one `receive_message`
(carrying the freshly persisted row) iff the peer is present in the
registry and differs from the sender and zero deliveries otherwise, and
never delivers anything to the sender. -/
theorem send_message_spec (clients : List Nat) (tables : MsgTables)
    (_id peer_id : Nat) (chat_id : String) (message dt : String) (tbl : List MsgRow)
    (h : tables.lookup chat_id = some tbl) :
    ∃ tables' ds,
      send_message clients tables _id chat_id peer_id message dt
        = some (tables', ds) ∧
      tables'.lookup chat_id
        = some (tbl ++ [⟨nextMsgId tbl, _id, message, dt, _id != peer_id⟩]) ∧
      ((_id != peer_id) = true ↔ peer_id ≠ _id) ∧
      (∀ c, c ≠ chat_id → tables'.lookup c = tables.lookup c) ∧
      (ds = if peer_id ∈ clients ∧ peer_id ≠ _id then
          [(peer_id, some (⟨nextMsgId tbl, _id, message, dt, _id != peer_id⟩ : MsgRow))]
        else []) ∧
      (∀ d ∈ ds, d.1 ≠ _id) := by
  have hne_iff : ((_id != peer_id) = true ↔ peer_id ≠ _id) := by
    rw [bne_iff_ne]
    exact ne_comm
  have hunread : (!(_id == peer_id)) = (_id != peer_id) := rfl
  have hmain : send_message clients tables _id chat_id peer_id message dt
      = some (tables.map (fun nt => if nt.1 = chat_id then
            (nt.1, nt.2 ++ [⟨nextMsgId tbl, _id, message, dt, !(_id == peer_id)⟩])
            else nt),
          if clients.contains peer_id && !(_id == peer_id) then
            [(peer_id, get_message (tables.map (fun nt => if nt.1 = chat_id then
                (nt.1, nt.2 ++ [⟨nextMsgId tbl, _id, message, dt, !(_id == peer_id)⟩])
                else nt)) chat_id (nextMsgId tbl))]
          else []) := by
    unfold send_message add_message
    rw [h]
  have hget : get_message (tables.map (fun nt => if nt.1 = chat_id then
        (nt.1, nt.2 ++ [⟨nextMsgId tbl, _id, message, dt, !(_id == peer_id)⟩])
        else nt)) chat_id (nextMsgId tbl)
      = some ⟨nextMsgId tbl, _id, message, dt, !(_id == peer_id)⟩ := by
    unfold get_message
    rw [lookup_update_self tables chat_id
      (fun rows => rows ++
        [(⟨nextMsgId tbl, _id, message, dt, !(_id == peer_id)⟩ : MsgRow)]), h]
    show (tbl ++ [(⟨nextMsgId tbl, _id, message, dt, !(_id == peer_id)⟩ : MsgRow)]).find?
        (fun r => r.message_id == nextMsgId tbl) = _
    exact find?_fresh_append tbl ⟨nextMsgId tbl, _id, message, dt, !(_id == peer_id)⟩
      (fun r hr => Nat.ne_of_lt (msgid_lt_nextMsgId tbl r hr))
  have hds : (if clients.contains peer_id && !(_id == peer_id) then
        [(peer_id, get_message (tables.map (fun nt => if nt.1 = chat_id then
            (nt.1, nt.2 ++ [⟨nextMsgId tbl, _id, message, dt, !(_id == peer_id)⟩])
            else nt)) chat_id (nextMsgId tbl))]
        else [])
      = if peer_id ∈ clients ∧ peer_id ≠ _id then
          [(peer_id, some (⟨nextMsgId tbl, _id, message, dt, _id != peer_id⟩ : MsgRow))]
        else [] := by
    by_cases hmem : peer_id ∈ clients
    · by_cases hself : peer_id = _id
      · have hb : (_id != peer_id) = false := by simp [hself]
        rw [hunread, hb,
          if_neg (fun (hcon : peer_id ∈ clients ∧ peer_id ≠ _id) => hcon.2 hself)]
        simp
      · have hbne : (_id != peer_id) = true := hne_iff.mpr hself
        have hcont : clients.contains peer_id = true := List.elem_eq_true_of_mem hmem
        rw [hget, hunread, hbne, hcont, if_pos (And.intro hmem hself)]
        simp
    · have hcont : clients.contains peer_id = false := by simpa using hmem
      rw [hunread, hcont,
        if_neg (fun (hcon : peer_id ∈ clients ∧ peer_id ≠ _id) => hmem hcon.1)]
      simp
  refine ⟨_, _, hmain, ?_, hne_iff, ?_, hds, ?_⟩
  · rw [lookup_update_self tables chat_id
      (fun rows => rows ++
        [(⟨nextMsgId tbl, _id, message, dt, !(_id == peer_id)⟩ : MsgRow)]), h, hunread]
    rfl
  · intro c hc
    exact lookup_update_other tables chat_id c hc
      (fun rows => rows ++
        [(⟨nextMsgId tbl, _id, message, dt, !(_id == peer_id)⟩ : MsgRow)])
  · intro d hd
    rw [hds] at hd
    by_cases hcond : peer_id ∈ clients ∧ peer_id ≠ _id
    · rw [if_pos hcond] at hd
      simp only [List.mem_singleton] at hd
      rw [hd]
      exact hcond.2
    · rw [if_neg hcond] at hd
      simp at hd

/-- Witness for C3 on a concrete state: user 1 sends to online peer 2 in
chat `chat_1_2` whose table is empty. -/
theorem send_message_spec_witness :
    (([("chat_1_2", [])] : MsgTables).lookup "chat_1_2" = some []) ∧
    (∃ tables' ds,
      send_message [2] [("chat_1_2", [])] 1 "chat_1_2" 2 "ct" "dt"
        = some (tables', ds) ∧
      tables'.lookup "chat_1_2"
        = some ([] ++ [⟨nextMsgId [], 1, "ct", "dt", (1 : Nat) != 2⟩]) ∧
      (((1 : Nat) != 2) = true ↔ (2 : Nat) ≠ 1) ∧
      (∀ c, c ≠ "chat_1_2" →
        tables'.lookup c = ([("chat_1_2", [])] : MsgTables).lookup c) ∧
      (ds = if (2 : Nat) ∈ [2] ∧ (2 : Nat) ≠ 1 then
          [(2, some (⟨nextMsgId [], 1, "ct", "dt", (1 : Nat) != 2⟩ : MsgRow))]
        else []) ∧
      (∀ d ∈ ds, d.1 ≠ 1)) :=
  ⟨rfl, send_message_spec [2] [("chat_1_2", [])] 1 2 "chat_1_2" "ct" "dt" [] rfl⟩

/-! ## C9: decryption failure handling -/

theorem find?_map_set (d : SavedChat) (k : String) (v : Option String)
    (hany : d.any (fun p => p.1 == k) = true) :
    (d.map (fun p => if p.1 = k then (p.1, v) else p)).find? (fun p => p.1 == k)
      = some (k, v) := by
  induction d with
  | nil => simp at hany
  | cons p ps ih =>
    simp only [List.map_cons]
    by_cases hpk : p.1 = k
    · have hb : ((p.1 == k) : Bool) = true := by simp [hpk]
      rw [if_pos hpk]
      simp [List.find?_cons, hb, hpk]
    · have hb : ((p.1 == k) : Bool) = false := by simp [hpk]
      have hps : ps.any (fun p => p.1 == k) = true := by
        rcases List.any_eq_true.mp hany with ⟨x, hx, hxk⟩
        rcases List.mem_cons.mp hx with hx | hx
        · subst hx
          exact absurd (by simpa using hxk) hpk
        · exact List.any_eq_true.mpr ⟨x, hx, hxk⟩
      rw [if_neg hpk]
      simp only [List.find?_cons, hb]
      exact ih hps

theorem find?_append_missing (d : SavedChat) (k : String) (v : Option String)
    (hnone : d.any (fun p => p.1 == k) = false) :
    (d ++ [(k, v)]).find? (fun p => p.1 == k) = some (k, v) := by
  induction d with
  | nil => simp
  | cons p ps ih =>
    rw [List.any_cons, Bool.or_eq_false_iff] at hnone
    rw [List.cons_append]
    simp only [List.find?_cons, hnone.1]
    exact ih hnone.2

theorem find?_map_set_other (d : SavedChat) (k k' : String) (v : Option String)
    (hne : k' ≠ k) :
    (d.map (fun p => if p.1 = k then (p.1, v) else p)).find? (fun p => p.1 == k')
      = d.find? (fun p => p.1 == k') := by
  induction d with
  | nil => simp
  | cons p ps ih =>
    simp only [List.map_cons]
    by_cases hpk : p.1 = k
    · rw [if_pos hpk]
      have hf : ((p.1 == k') : Bool) = false := by
        rw [beq_eq_false_iff_ne, hpk]
        exact fun hc => hne hc.symm
      simp only [List.find?_cons, hf]
      exact ih
    · rw [if_neg hpk]
      simp only [List.find?_cons]
      cases hp' : ((p.1 == k') : Bool) with
      | true => rfl
      | false => exact ih

theorem find?_append_single_ne (d : SavedChat) (k k' : String) (v : Option String)
    (hne : k' ≠ k) :
    (d ++ [(k, v)]).find? (fun p => p.1 == k') = d.find? (fun p => p.1 == k') := by
  induction d with
  | nil =>
    have hkk : ((k == k') : Bool) = false := beq_eq_false_iff_ne.mpr (Ne.symm hne)
    rw [List.nil_append]
    simp [List.find?_cons, hkk]
  | cons p ps ih =>
    rw [List.cons_append]
    simp only [List.find?_cons]
    cases hp' : ((p.1 == k') : Bool) with
    | true => rfl
    | false => exact ih

theorem dictGet_dictSet_self (d : SavedChat) (k : String) (v : Option String) :
    dictGet (dictSet d k v) k = some v := by
  unfold dictGet dictSet
  by_cases hany : d.any (fun p => p.1 == k) = true
  · rw [if_pos hany, find?_map_set d k v hany]
    rfl
  · have hf : d.any (fun p => p.1 == k) = false := by
      cases hq : d.any (fun p => p.1 == k) with
      | true => exact absurd hq hany
      | false => rfl
    rw [if_neg hany, find?_append_missing d k v hf]
    rfl

theorem dictGet_dictSet_ne (d : SavedChat) (k k' : String) (v : Option String)
    (hne : k' ≠ k) : dictGet (dictSet d k v) k' = dictGet d k' := by
  unfold dictGet dictSet
  by_cases hany : d.any (fun p => p.1 == k) = true
  · rw [if_pos hany, find?_map_set_other d k k' v hne]
  · rw [if_neg hany, find?_append_single_ne d k k' v hne]

theorem dictGet_fold_const (pairs : List (String × Option String)) (d : SavedChat)
    (k : String) (v : Option String)
    (hall : ∀ p ∈ pairs, p.1 = k → p.2 = v)
    (hstart : (k, v) ∈ pairs ∨ dictGet d k = some v) :
    dictGet (pairs.foldl (fun acc p => dictSet acc p.1 p.2) d) k = some v := by
  induction pairs generalizing d with
  | nil =>
    rcases hstart with h | h
    · simp at h
    · simpa using h
  | cons p ps ih =>
    simp only [List.foldl_cons]
    by_cases hpk : p.1 = k
    · have hpv : p.2 = v := hall p (List.mem_cons_self p ps) hpk
      apply ih
      · exact fun q hq hqk => hall q (List.mem_cons_of_mem p hq) hqk
      · right
        rw [hpk, hpv]
        exact dictGet_dictSet_self d k v
    · apply ih
      · exact fun q hq hqk => hall q (List.mem_cons_of_mem p hq) hqk
      · rcases hstart with h | h
        · rcases List.mem_cons.mp h with h | h
          · exact absurd (by rw [← h]) hpk
          · exact Or.inl h
        · right
          rw [dictGet_dictSet_ne d p.1 k p.2 (fun hc => hpk hc.symm)]
          exact h

/-- C9: the client's `decrypt_message` always returns the pair
`(ciphertext, plaintext-or-None)` and never raises: when the underlying
primitive throws (`ValueError` on key mismatch, or anything else), the
second component is `None`, and a `None` plaintext renders as the fixed
failure placeholder (in italics) — identically on the live
`receive_message` path and on the bulk-resync path. -/
theorem decrypt_failure_rendering (cipher : String) (cache : SavedChat)
    (msgs : List String) (primF : String → PrimResult)
    (hmem : cipher ∈ msgs) (hfresh : dictGet cache cipher = none)
    (hfail : primF cipher = .valueError) :
    (∀ prim : PrimResult, (decrypt_message prim cipher).1 = cipher) ∧
    decrypt_message .valueError cipher = (cipher, none) ∧
    decrypt_message .otherError cipher = (cipher, none) ∧
    live_receive_render .valueError cipher cache = (FAILURE_TEXT, true) ∧
    sync_render primF msgs cache cipher = (FAILURE_TEXT, true) ∧
    live_receive_render .valueError cipher cache
      = sync_render primF msgs cache cipher := by
  have htotal : ∀ prim : PrimResult, (decrypt_message prim cipher).1 = cipher := by
    intro prim
    cases prim <;> rfl
  have hlive : live_receive_render .valueError cipher cache = (FAILURE_TEXT, true) := by
    show render_from_cache (dictSet cache cipher none) cipher = (FAILURE_TEXT, true)
    unfold render_from_cache
    rw [dictGet_dictSet_self]
    rfl
  have hsync : sync_render primF msgs cache cipher = (FAILURE_TEXT, true) := by
    have hkey : dictGet (sync_decrypt primF msgs cache) cipher = some none := by
      unfold sync_decrypt
      apply dictGet_fold_const
      · intro p hp hpk
        obtain ⟨m, hm, rfl⟩ := List.mem_map.mp hp
        have hm2 : m = cipher := hpk
        subst hm2
        unfold decrypt_message
        rw [hfail]
      · left
        refine List.mem_map.mpr ⟨cipher, ?_, ?_⟩
        · rw [List.mem_filter]
          refine ⟨hmem, ?_⟩
          rw [hfresh]
          rfl
        · unfold decrypt_message
          rw [hfail]
    unfold sync_render render_from_cache
    rw [hkey]
    rfl
  exact ⟨htotal, rfl, rfl, hlive, hsync, by rw [hlive, hsync]⟩

/-- Witness for C9: a fresh ciphertext whose decryption fails renders as
the failure placeholder on both paths. -/
theorem decrypt_failure_rendering_witness :
    (("c" : String) ∈ ["c"] ∧ dictGet [] "c" = none ∧
      (fun _ : String => PrimResult.valueError) "c" = PrimResult.valueError) ∧
    ((∀ prim : PrimResult, (decrypt_message prim "c").1 = "c") ∧
      decrypt_message .valueError "c" = ("c", none) ∧
      decrypt_message .otherError "c" = ("c", none) ∧
      live_receive_render .valueError "c" [] = (FAILURE_TEXT, true) ∧
      sync_render (fun _ => .valueError) ["c"] [] "c" = (FAILURE_TEXT, true) ∧
      live_receive_render .valueError "c" []
        = sync_render (fun _ => .valueError) ["c"] [] "c") :=
  ⟨⟨by simp, rfl, rfl⟩,
    decrypt_failure_rendering "c" [] ["c"] (fun _ => .valueError) (by simp) rfl rfl⟩

/-! ## C7: key change on reconnect -/

/-- C7: the claim says a known user reconnecting with a different public
key has the new key persisted and a `change_key` notice pushed to each
online peer during Syncing.  In the code, the registered branch persists
the key (main.py:75) but then re-fetches the user with
`database.get_user(mac)` (main.py:76) — one argument short, raising
`TypeError`: the session dies after the lone `registered` reply, the
sync never runs, and zero `change_key` notices are emitted, for every
state.  (Line 62 mis-calls the same lookup, so in a real run the branch
is not even reached.) -/
theorem registered_key_change_typeerror (users : List UserRow) (chats : List ChatRow)
    (tables : MsgTables) (clients : List Nat) (user : UserRow) (key : String)
    (h : key ≠ user.key) :
    registered_branch users chats tables clients user key =
      ⟨change_key users user.user_id key, [.text "registered"], [], clients,
        some .typeError⟩ := by
  unfold registered_branch
  rw [if_pos h]
  rfl

/-- Witness for C7: a concrete registered user reconnecting with a new
key. -/
theorem registered_key_change_typeerror_witness :
    ("K2" : String) ≠ "K1" ∧
    registered_branch [⟨1, "ip", "mac", ['a'], "K1"⟩] [] [] []
        ⟨1, "ip", "mac", ['a'], "K1"⟩ "K2" =
      ⟨change_key [⟨1, "ip", "mac", ['a'], "K1"⟩] 1 "K2", [.text "registered"], [], [],
        some .typeError⟩ :=
  ⟨by decide, registered_key_change_typeerror [⟨1, "ip", "mac", ['a'], "K1"⟩] [] [] []
    ⟨1, "ip", "mac", ['a'], "K1"⟩ "K2" (by decide)⟩

/-! ## C10: search_peer substring matching -/

theorem likeMatch_percent_all (t : List Char) : likeMatch ['%'] t = true := by
  induction t with
  | nil => simp [likeMatch]
  | cons c ts ih => simp [likeMatch, ih]

theorem likeMatch_literal (s : List Char) (hs : ∀ c ∈ s, c ≠ '%' ∧ c ≠ '_')
    (t : List Char) : likeMatch (s ++ ['%']) t = prefixCI s t := by
  induction s generalizing t with
  | nil => cases t <;> simp [prefixCI, List.isPrefixOf, likeMatch_percent_all]
  | cons c cs ih =>
    obtain ⟨hc1, hc2⟩ := hs c (List.mem_cons_self c cs)
    have hs' : ∀ x ∈ cs, x ≠ '%' ∧ x ≠ '_' :=
      fun x hx => hs x (List.mem_cons_of_mem c hx)
    cases t with
    | nil => simp [likeMatch, hc1, prefixCI, List.isPrefixOf]
    | cons d ts => simp [likeMatch, hc1, hc2, prefixCI, List.isPrefixOf, ih hs']

theorem likeMatch_containsCI (s : List Char) (hs : ∀ c ∈ s, c ≠ '%' ∧ c ≠ '_')
    (t : List Char) : likeMatch ('%' :: (s ++ ['%'])) t = containsCI s t := by
  induction t with
  | nil => simp [likeMatch, likeMatch_literal s hs, containsCI]
  | cons c ts ih => simp [likeMatch, likeMatch_literal s hs, containsCI, ih]

theorem containsCI_nil (h : List Char) : containsCI [] h = true := by
  cases h with
  | nil => simp [containsCI, prefixCI, List.isPrefixOf]
  | cons c rest => simp [containsCI, prefixCI, List.isPrefixOf]

/-- C10: for every wildcard-free `search_peer` query `s`, the returned
list contains exactly the users whose username contains `s` as a
substring after ASCII case folding (SQL `LIKE` is case-insensitive for
ASCII letters, in contrast with the case-sensitive uniqueness check),
and the empty query matches every user. -/
theorem search_peer_substring (users : List UserRow) (q : List Char)
    (hq : ∀ c ∈ q, c ≠ '%' ∧ c ≠ '_') :
    get_users users q = users.filter (fun u => containsCI q u.username) ∧
    (q = [] → get_users users q = users) := by
  have hfilter : get_users users q
      = users.filter (fun u => containsCI q u.username) := by
    unfold get_users
    apply List.filter_congr
    intro u _
    exact likeMatch_containsCI q hq u.username
  refine ⟨hfilter, fun hq0 => ?_⟩
  subst hq0
  rw [hfilter]
  apply List.filter_eq_self.mpr
  intro u _
  exact containsCI_nil u.username

/-- Witness for C10: the query `ALI` (upper case) matches the stored
username `alice` (lower case). -/
theorem search_peer_substring_witness :
    (∀ c ∈ (['A', 'L', 'I'] : List Char), c ≠ '%' ∧ c ≠ '_') ∧
    (get_users [⟨1, "i", "m", ['a', 'l', 'i', 'c', 'e'], "k"⟩] ['A', 'L', 'I']
        = [⟨1, "i", "m", ['a', 'l', 'i', 'c', 'e'], "k"⟩].filter
            (fun u => containsCI ['A', 'L', 'I'] u.username) ∧
      (['A', 'L', 'I'] = ([] : List Char) →
        get_users [⟨1, "i", "m", ['a', 'l', 'i', 'c', 'e'], "k"⟩] ['A', 'L', 'I']
          = [⟨1, "i", "m", ['a', 'l', 'i', 'c', 'e'], "k"⟩])) :=
  ⟨by decide, search_peer_substring [⟨1, "i", "m", ['a', 'l', 'i', 'c', 'e'], "k"⟩]
    ['A', 'L', 'I'] (by decide)⟩

end PeerChat
